import Mathlib

/-!
Shallow embedding of `scripts/analyze-build-output.mjs`, the post-build
bundle-analysis script (the repository's only component with real logic).

Modelling conventions:
* The filesystem is an inductive tree.  `FsTree.badDir` stands for a
  directory whose own `readdirSync` fails (permission / transient I/O
  error); an unreadable directory still answers `isDirectory() = true`
  when listed by its parent.
* JavaScript exceptions (from `readdirSync`, `JSON.parse`, `readFileSync`)
  are modelled as `Except Unit`: `.error ()` is an uncaught thrown error;
  the script has no `try`/`catch`, so `.error` propagating to the top of
  `runAnalyzer` models a crash with a nonzero exit status, while `.ok`
  models a clean `status 0` run.
* Paths are lists of name segments.  `path.join` appends a segment and
  `path.relative(base, full)` is the segment list below `base`; the JS
  `split(path.sep)[0]` of such a relative path is its first segment
  (segment names produced by a real filesystem are nonempty and contain
  no separator).
* File sizes are `Nat` (JS numbers here are nonnegative integers well
  below 2^53, where double arithmetic on them is exact).
* A file's content only matters for `.vc-config.json`: `FileData.badJson`
  is content `JSON.parse` rejects, `FileData.vcConfig h r` is a parsed
  object with string fields `handler` and `runtime`.  Content of all
  other files is never read; examples use `badJson` as a placeholder.
* JS string ops are re-implemented over `List Char` so that concrete
  runs reduce inside the kernel: `strStarts`/`strEnds`/`strContains`
  model `startsWith`/`endsWith`/`includes`, `strLower` models
  `toLowerCase` (ASCII, enough for the names involved).
* The `groups` object keyed by strings enumerates in insertion order
  (`Object.entries`); it is modelled as an association list built
  left-to-right.  `Array.prototype.sort` with the comparator
  `(a, b) => b[1].size - a[1].size` is a stable sort by weakly
  decreasing size; for such a total preorder the stable-sorted result
  is unique, and `List.insertionSort` with relation `sizeGE` computes
  exactly it.
-/

/-! ### String helpers (JS string operations over char lists) -/

/-- Prefix test on char lists: `isPre p s` is true when `p` is an initial
segment of `s`. -/
def isPre : List Char → List Char → Bool
  | [], _ => true
  | _ :: _, [] => false
  | a :: s, b :: t => a == b && isPre s t

/-- JS `s.startsWith(p)`. -/
def strStarts (s p : String) : Bool := isPre p.toList s.toList

/-- JS `s.endsWith(p)`. -/
def strEnds (s p : String) : Bool := isPre p.toList.reverse s.toList.reverse

/-- JS `s.toLowerCase()` (ASCII range, which covers every name and pattern
the script compares). -/
def strLower (s : String) : String := String.mk (s.toList.map Char.toLower)

/-- Does `pat` occur as a contiguous segment of `l`?  Helper for
`strContains`. -/
def containsSeg : List Char → List Char → Bool
  | [], pat => pat.isEmpty
  | c :: t, pat => isPre pat (c :: t) || containsSeg t pat

/-- JS `s.includes(pat)`. -/
def strContains (s pat : String) : Bool := containsSeg s.toList pat.toList

/-- Strict lexicographic order on strings by char code (the usual
"lexicographic order of names" the spec refers to). -/
def charListLt : List Char → List Char → Bool
  | [], [] => false
  | [], _ :: _ => true
  | _ :: _, [] => false
  | a :: s, b :: t => a < b || (a == b && charListLt s t)

/-- Strict lexicographic order on strings. -/
def strLt (a b : String) : Bool := charListLt a.toList b.toList

/-! ### Filesystem model -/

/-- Content of a regular file, as far as the script can observe it.  Only
the descriptor file `.vc-config.json` is ever read. -/
inductive FileData where
  | badJson
  | vcConfig (handler : String) (runtime : String)

/-- A filesystem node.  `badDir` is a directory whose `readdirSync`
throws (e.g. permission denied). -/
inductive FsTree where
  | file (size : Nat) (data : FileData)
  | dir (entries : List (String × FsTree))
  | badDir

instance : Inhabited FileData := ⟨.badJson⟩

instance : Inhabited FsTree := ⟨.badDir⟩

/-- `Dirent.isDirectory()` for a listed entry.  An unreadable directory is
still a directory to its parent's listing. -/
def isDirectory : FsTree → Bool
  | .file _ _ => false
  | .dir _ => true
  | .badDir => true

/-- Look a name up among a directory's entries (a real filesystem lists
each name once; on duplicates this takes the first, like resolution
would). -/
def lookupName (name : String) : List (String × FsTree) → Option FsTree
  | [] => none
  | (n, t) :: rest => if n = name then some t else lookupName name rest

/-- Resolve a relative path (list of segments) against a tree.  Descending
through anything but a readable directory fails. -/
def resolvePath : FsTree → List String → Option FsTree
  | t, [] => some t
  | .dir es, name :: rest =>
      match lookupName name es with
      | some t' => resolvePath t' rest
      | none => none
  | _, _ :: _ => none

/-! ### The script's constants -/

/-- The deployable-unit directory suffix (`.func`). -/
def unitSuffix : String := ".func"

/-- The unit metadata descriptor file name. -/
def vcConfigName : String := ".vc-config.json"

/-- The common-ancestor-collapse marker the script greps the handler
path for. -/
def pathZeroMarker : String := "vercel/path0"

/-- `systemDirPatterns` from the script, verbatim. -/
def systemDirPatterns : List String :=
  ["uv", "node22", "node20", "node18", ".vercel", "usr", "opt", "tmp"]

/-! ### `findFuncDirs`: the locator -/

/-! `findFuncDirs` / its loop over one directory listing.  Translation of

```js
function findFuncDirs(dir) {
  const results = [];
  for (const entry of fs.readdirSync(dir, { withFileTypes: true })) {
    const full = path.join(dir, entry.name);
    if (entry.isDirectory()) {
      if (entry.name.endsWith('.func')) { results.push(full); }
      else { results.push(...findFuncDirs(full)); }
    }
  }
  return results;
}
```

`pfx` is the path from the output root so far; each found unit is paired
with its subtree (the model's stand-in for the absolute path, which in
JS is later re-read from disk).  `readdirSync` on a non-directory or
unreadable directory throws, which ends the whole call. -/
mutual
def findFuncDirs (pfx : List String) : FsTree → Except Unit (List (List String × FsTree))
  | .dir es => findFuncDirsL pfx es
  | _ => .error ()

def findFuncDirsL (pfx : List String) :
    List (String × FsTree) → Except Unit (List (List String × FsTree))
  | [] => .ok []
  | (name, t) :: rest =>
      match
        (if isDirectory t then
          if strEnds name unitSuffix then (.ok [(pfx ++ [name], t)] : Except Unit _)
          else findFuncDirs (pfx ++ [name]) t
        else .ok []) with
      | .error e => .error e
      | .ok here =>
          match findFuncDirsL pfx rest with
          | .error e => .error e
          | .ok more => .ok (here ++ more)
end

/-! ### `walkFiles`: the inventory -/

/-- One inventoried file: unit-relative path segments and byte size. -/
structure FileEntry where
  path : List String
  size : Nat
deriving DecidableEq

/-! `walkFiles` / its loop.  Translation of

```js
function walkFiles(dir, base = dir) {
  const results = [];
  for (const entry of fs.readdirSync(dir, { withFileTypes: true })) {
    const full = path.join(dir, entry.name);
    if (entry.isDirectory()) { results.push(...walkFiles(full, base)); }
    else {
      const stat = fs.statSync(full);
      results.push({ path: path.relative(base, full), size: stat.size });
    }
  }
  return results;
}
```

`rel` is the path below the unit root.  Recursing into an unreadable
directory hits its failing `readdirSync`; there is no `try`/`catch`, so
the error ends the walk. -/
/-- `statSync(full).size` for a listed entry (only ever evaluated on
regular files, where it succeeds). -/
def statSize : FsTree → Nat
  | .file sz _ => sz
  | _ => 0

mutual
def walkFiles (rel : List String) : FsTree → Except Unit (List FileEntry)
  | .dir es => walkFilesL rel es
  | _ => .error ()

def walkFilesL (rel : List String) :
    List (String × FsTree) → Except Unit (List FileEntry)
  | [] => .ok []
  | (name, t) :: rest =>
      match
        (if isDirectory t then walkFiles (rel ++ [name]) t
         else .ok [⟨rel ++ [name], statSize t⟩]) with
      | .error e => .error e
      | .ok here =>
          match walkFilesL rel rest with
          | .error e => .error e
          | .ok more => .ok (here ++ more)
end

/-! Does a tree contain an unreadable directory anywhere? -/
mutual
def hasBadDir : FsTree → Bool
  | .file _ _ => false
  | .dir es => hasBadDirL es
  | .badDir => true

def hasBadDirL : List (String × FsTree) → Bool
  | [] => false
  | (_, t) :: rest => hasBadDir t || hasBadDirL rest
end

/-! ### `formatSize` -/

/-- `x.toFixed(1)` for `x = num / den`, as a rational computation: round
half-up to one decimal (ECMA `toFixed` picks the closer decimal, the
larger one on ties; for the divisors 2^10 and 2^20 and `num < 2^53` the
double `num / den` is exact, so this agrees with JS). -/
def fmt1 (num den : Nat) : String :=
  toString ((num * 10 + den / 2) / den / 10) ++ "." ++
    toString ((num * 10 + den / 2) / den % 10)

/-- Translation of

```js
function formatSize(bytes) {
  if (bytes >= 1024 * 1024) return `${(bytes / (1024 * 1024)).toFixed(1)} MB`;
  if (bytes >= 1024) return `${(bytes / 1024).toFixed(1)} KB`;
  return `${bytes} B`;
}
``` -/
def formatSize (bytes : Nat) : String :=
  if 1024 * 1024 ≤ bytes then fmt1 bytes (1024 * 1024) ++ " MB"
  else if 1024 ≤ bytes then fmt1 bytes 1024 ++ " KB"
  else toString bytes ++ " B"

/-! ### Grouping, sorting, suspicion -/

/-- Per-group accumulator, `{ count, size }` in the script. -/
structure GroupInfo where
  count : Nat
  size : Nat
deriving DecidableEq

/-- `f.path.split(path.sep)[0] || '(root)'`: the first segment of the
relative path; the `'(root)'` fallback fires exactly when that first
segment is falsy, i.e. the empty string. -/
def topDir (p : List String) : String :=
  match p with
  | [] => "(root)"
  | s :: _ => if s = "" then "(root)" else s

/-- Add one file to the groups association list (JS object property
update: existing key updated in place, new key appended, preserving
enumeration order). -/
def addFile (key : String) (sz : Nat) :
    List (String × GroupInfo) → List (String × GroupInfo)
  | [] => [(key, ⟨1, sz⟩)]
  | (k, g) :: rest =>
      if k = key then (k, ⟨g.count + 1, g.size + sz⟩) :: rest
      else (k, g) :: addFile key sz rest

/-- The grouping loop:

```js
const groups = {};
for (const f of files) {
  const topDir = f.path.split(path.sep)[0] || '(root)';
  if (!groups[topDir]) groups[topDir] = { count: 0, size: 0 };
  groups[topDir].count++;
  groups[topDir].size += f.size;
}
```

The association list records `Object.entries(groups)` order (string-key
insertion order; no group key here is an array-index string). -/
def buildGroups (files : List FileEntry) : List (String × GroupInfo) :=
  files.foldl (fun acc f => addFile (topDir f.path) f.size acc) []

/-- Order underlying the comparator `(a, b) => b[1].size - a[1].size`:
`sizeGE x y` says `x` may come before `y`. -/
def sizeGE (x y : String × GroupInfo) : Prop := y.2.size ≤ x.2.size

instance : DecidableRel sizeGE := fun x y => Nat.decLe y.2.size x.2.size

instance : IsTotal (String × GroupInfo) sizeGE :=
  ⟨fun a b => Nat.le_total b.2.size a.2.size⟩

instance : IsTrans (String × GroupInfo) sizeGE :=
  ⟨fun _ _ _ h1 h2 => Nat.le_trans h2 h1⟩

/-- `Object.entries(groups).sort((a, b) => b[1].size - a[1].size)`:
a stable sort by weakly decreasing size.  For this total preorder the
stable result is unique and insertion sort computes it. -/
def sortBySizeDesc (l : List (String × GroupInfo)) : List (String × GroupInfo) :=
  List.insertionSort sizeGE l

/-- `systemDirPatterns.some(p => dir.toLowerCase().startsWith(p))`. -/
def isSuspicious (key : String) : Bool :=
  systemDirPatterns.any (fun p => strStarts (strLower key) p)

/-! ### Per-unit report and the run -/

/-- Reading and parsing `.vc-config.json`:
`existsSync` (a child of an unreadable directory reports as absent), then
`readFileSync` + `JSON.parse` + field access — reading a directory or
parsing malformed content throws. -/
def readDescriptor (es : List (String × FsTree)) :
    Except Unit (Option (String × String)) :=
  match lookupName vcConfigName es with
  | none => .ok none
  | some (.file _ (.vcConfig h r)) => .ok (some (h, r))
  | some _ => .error ()

/-- Everything the script prints for one unit, as a structured value:
identity, descriptor fields, the `vercel/path0` structural warning, the
totals, the sorted group table and the suspicious sublist. -/
structure Report where
  name : List String
  handler : Option String
  runtime : Option String
  pathZeroWarn : Bool
  totalFiles : Nat
  totalSize : Nat
  table : List (String × GroupInfo)
  suspicious : List (String × GroupInfo)

/-- The body of the `for (const funcDir of funcDirs)` loop for one unit:
descriptor step, inventory, totals, grouping, sorting, suspicion filter.
A unit that is not a readable directory fails at its `readdirSync`
(its descriptor is reported absent first, since `existsSync` under it
yields false). -/
def reportUnit (name : List String) : FsTree → Except Unit Report
  | .dir es =>
      match readDescriptor es with
      | .error e => .error e
      | .ok desc =>
          match walkFilesL [] es with
          | .error e => .error e
          | .ok files =>
              .ok { name := name
                    handler := desc.map (fun d => d.1)
                    runtime := desc.map (fun d => d.2)
                    pathZeroWarn :=
                      match desc with
                      | some d => strContains d.1 pathZeroMarker
                      | none => false
                    totalFiles := files.length
                    totalSize := (files.map (fun f => f.size)).sum
                    table := sortBySizeDesc (buildGroups files)
                    suspicious :=
                      (sortBySizeDesc (buildGroups files)).filter
                        (fun g => isSuspicious g.1) }
  | _ => .error ()

/-- What a whole run produces on success. -/
inductive RunOutcome where
  | skipped
  | noUnits
  | reports (rs : List Report)

/-- The per-unit loop: strictly sequential, no `try`/`catch`, so the first
thrown error ends the run with the remaining units unreported. -/
def runUnits : List (List String × FsTree) → Except Unit (List Report)
  | [] => .ok []
  | u :: rest =>
      match reportUnit u.1 u.2 with
      | .error e => .error e
      | .ok r =>
          match runUnits rest with
          | .error e => .error e
          | .ok rs => .ok (r :: rs)

/-- The whole script.  `none` is a missing output root (`existsSync`
false: skip message, `process.exit(0)`); `some t` is whatever node sits
at `.vercel/output/functions` — `existsSync` is true for any node, and
`findFuncDirs` then calls `readdirSync` on it.  `.ok` is a clean exit 0,
`.error` an uncaught exception (crash). -/
def runAnalyzer : Option FsTree → Except Unit RunOutcome
  | none => .ok .skipped
  | some root =>
      match findFuncDirs [] root with
      | .error e => .error e
      | .ok units =>
          if units.isEmpty then .ok .noUnits
          else
            match runUnits units with
            | .error e => .error e
            | .ok rs => .ok (.reports rs)

/-! ### Derived quantities and sample inputs used by concrete runs -/

/-- Total of the per-group file counts of a table. -/
def sumCounts (l : List (String × GroupInfo)) : Nat :=
  (l.map (fun g => g.2.count)).sum

/-- Total of the per-group byte sizes of a table. -/
def sumSizes (l : List (String × GroupInfo)) : Nat :=
  (l.map (fun g => g.2.size)).sum

/-- The shape every emitted unit path has: some descent segments that do
not end in the unit suffix, then one final segment that does. -/
def funcShape (p : List String) : Prop :=
  ∃ mid lastSeg, p = mid ++ [lastSeg] ∧ strEnds lastSeg unitSuffix = true ∧
    ∀ s ∈ mid, strEnds s unitSuffix = false

/-- Extract the report of a successful per-unit run (dummy on error; only
applied where the run succeeds). -/
def getRep : Except Unit Report → Report
  | .ok r => r
  | .error _ =>
      { name := [], handler := none, runtime := none, pathZeroWarn := false
        totalFiles := 0, totalSize := 0, table := [], suspicious := [] }

/-- A unit mixing application directories with a system directory. -/
def demoTree : FsTree :=
  .dir [(".vc-config.json", .file 12 (.vcConfig "app/index.js" "nodejs22.x")),
        ("app", .dir [("index.js", .file 300 .badJson),
                      ("chunk.js", .file 200 .badJson)]),
        ("usr", .dir [("lib", .dir [("libx.so", .file 5000 .badJson)])]),
        ("start.js", .file 40 .badJson)]

/-- `demoTree`'s report. -/
def demoRep : Report := getRep (reportUnit ["fn.func"] demoTree)

/-- A unit whose descriptor file is present but malformed. -/
def c3tree : FsTree :=
  .dir [(".vc-config.json", .file 10 .badJson),
        ("index.js", .file 100 .badJson)]

/-- An output root holding `c3tree` as its only unit. -/
def c3root : FsTree := .dir [("fn.func", c3tree)]

/-- First unit: contains an unreadable subdirectory next to a readable
file. -/
def c4a : FsTree := .dir [("sub", .badDir), ("keep.txt", .file 7 .badJson)]

/-- Second (sibling) unit: perfectly readable. -/
def c4b : FsTree := .dir [("ok.txt", .file 3 .badJson)]

/-- An output root with a failing unit followed by a healthy sibling. -/
def c4root : FsTree := .dir [("a.func", c4a), ("b.func", c4b)]

/-- Two top-level directories of equal size, encountered in
anti-lexicographic order. -/
def c5tree : FsTree :=
  .dir [("b", .dir [("x", .file 5 .badJson)]),
        ("a", .dir [("y", .file 5 .badJson)])]

/-- `c5tree`'s report. -/
def c5rep : Report := getRep (reportUnit ["u.func"] c5tree)

/-- An output root with a unit nested below a plain directory, a unit
directly at the root, and a `.func` directory nested inside another
`.func` directory (which must not be emitted separately). -/
def c6root : FsTree :=
  .dir [("api", .dir [("fn.func", .dir [("inner.func", .dir [])])]),
        ("top.func", .dir [("x.txt", .file 1 .badJson)])]

/-- The subtree of `c6root` at `api/fn.func`. -/
def c6fnTree : FsTree := .dir [("inner.func", .dir [])]

/-- The units `findFuncDirs` locates under `c6root`. -/
def c6units : List (List String × FsTree) :=
  match findFuncDirs [] c6root with
  | .ok us => us
  | .error _ => []

/-- A unit holding a single file directly at the unit root. -/
def c9tree : FsTree := .dir [("standalone.js", .file 7 .badJson)]

/-- `c9tree`'s report. -/
def c9rep : Report := getRep (reportUnit ["r.func"] c9tree)

/-- Entries of a unit whose parsed descriptor handler contains the
collapse marker while no group is name-suspicious. -/
def c10entries : List (String × FsTree) :=
  [(".vc-config.json",
     .file 20 (.vcConfig "vercel/path0/apps/site/index.js" "nodejs22.x")),
   ("app", .dir [("index.js", .file 50 .badJson)])]

/-- The unit directory over `c10entries`. -/
def c10tree : FsTree := .dir c10entries

/-- `c10tree`'s report. -/
def c10rep : Report := getRep (reportUnit ["p.func"] c10tree)

/-! ### Inversion of a successful per-unit report -/

/-- A successful `reportUnit` run exposes its pipeline: the unit was a
readable directory, the descriptor step and the walk succeeded, and every
report field is the corresponding aggregate. -/
theorem reportUnit_ok {name : List String} {t : FsTree} {rep : Report}
    (h : reportUnit name t = .ok rep) :
    ∃ es desc files, t = FsTree.dir es ∧ readDescriptor es = .ok desc ∧
      walkFilesL [] es = .ok files ∧
      rep = { name := name
              handler := desc.map (fun d => d.1)
              runtime := desc.map (fun d => d.2)
              pathZeroWarn := match desc with
                | some d => strContains d.1 pathZeroMarker
                | none => false
              totalFiles := files.length
              totalSize := (files.map (fun f => f.size)).sum
              table := sortBySizeDesc (buildGroups files)
              suspicious := (sortBySizeDesc (buildGroups files)).filter
                  (fun g => isSuspicious g.1) } := by
  cases t with
  | file sz d => simp [reportUnit] at h
  | badDir => simp [reportUnit] at h
  | dir es =>
    simp only [reportUnit] at h
    cases hd : readDescriptor es with
    | error e => rw [hd] at h; exact Except.noConfusion h
    | ok desc =>
      rw [hd] at h
      cases hw : walkFilesL [] es with
      | error e => rw [hw] at h; exact Except.noConfusion h
      | ok files =>
        rw [hw] at h
        injection h with h'
        exact ⟨es, desc, files, rfl, hd, hw, h'.symm⟩

/-! ### Walking a tree with an unreadable subdirectory throws -/

theorem hasBadDir_isDirectory (t : FsTree) (h : hasBadDir t = true) :
    isDirectory t = true := by
  cases t <;> simp_all [hasBadDir, isDirectory]

mutual
theorem walkFiles_hasBad : ∀ (t : FsTree), hasBadDir t = true →
    ∀ rel, walkFiles rel t = .error ()
  | .file _ _, h, _ => by simp [hasBadDir] at h
  | .badDir, _, _ => rfl
  | .dir es, h, rel => by
      have hh := walkFilesL_hasBad es (by simpa [hasBadDir] using h) rel
      simpa [walkFiles] using hh

theorem walkFilesL_hasBad : ∀ (es : List (String × FsTree)), hasBadDirL es = true →
    ∀ rel, walkFilesL rel es = .error ()
  | [], h, _ => by simp [hasBadDirL] at h
  | (name, t) :: rest, h, rel => by
      simp only [hasBadDirL, Bool.or_eq_true] at h
      by_cases hb : hasBadDir t = true
      · have h1 := walkFiles_hasBad t hb (rel ++ [name])
        have h2 := hasBadDir_isDirectory t hb
        simp [walkFilesL, h2, h1]
      · have hr : hasBadDirL rest = true := by tauto
        have hrec := walkFilesL_hasBad rest hr rel
        cases hin : (if isDirectory t then walkFiles (rel ++ [name]) t
            else .ok [⟨rel ++ [name], statSize t⟩]) with
        | error e => simp [walkFilesL, hin]
        | ok fs => simp [walkFilesL, hin, hrec]
end

/-! ### C7 -/

/-- C7, counterexample: an output root that exists but is a regular file
passes the `existsSync` check, and `readdirSync` on it then throws, so
the run crashes instead of reporting zero units and exiting with
status 0. -/
theorem c7_counterexample :
    runAnalyzer (some (FsTree.file 0 FileData.badJson)) = .error () := rfl

/-- C7, amended: a missing output root yields the clean skip outcome
(exit 0); an output root that exists but is a regular file makes the
initial directory read throw, aborting the run with an error. -/
theorem c7_missing_root (sz : Nat) (d : FileData) :
    runAnalyzer none = .ok .skipped ∧
    runAnalyzer (some (FsTree.file sz d)) = .error () := ⟨rfl, rfl⟩

/-! ### C3 -/

/-- C3, counterexample: a run over a single unit whose descriptor file is
present but malformed crashes (the `JSON.parse` exception is uncaught),
so no report is produced for the unit and the run does not finish. -/
theorem c3_counterexample : runAnalyzer (some c3root) = .error () := rfl

/-- C3, amended: a present but malformed descriptor makes the descriptor
step throw, which aborts that unit's report (and with it the run);
no degraded report with absent handler/runtime fields is produced. -/
theorem c3_malformed_descriptor_aborts (name : List String)
    (es : List (String × FsTree)) (sz : Nat)
    (h : lookupName vcConfigName es = some (.file sz .badJson)) :
    reportUnit name (.dir es) = .error () := by
  simp only [reportUnit, readDescriptor, h]

/-- C3 witness: the amended statement applied to a concrete malformed
unit. -/
theorem c3_witness :
    reportUnit ["w.func"] (.dir [(".vc-config.json", .file 3 .badJson)]) =
      .error () :=
  c3_malformed_descriptor_aborts ["w.func"]
    [(".vc-config.json", .file 3 .badJson)] 3 rfl

/-! ### C4 -/

/-- C4, counterexample: the locator finds the failing unit `a.func` and
its healthy sibling `b.func`, yet the run crashes on `a.func`'s
unreadable subdirectory: no partial totals, no warning, and the sibling
is never reported. -/
theorem c4_counterexample :
    findFuncDirs [] c4root = .ok [(["a.func"], c4a), (["b.func"], c4b)] ∧
    runAnalyzer (some c4root) = .error () := ⟨rfl, rfl⟩

/-- C4, amended: a filesystem failure while inventorying any subtree of a
unit propagates out of the walk — the inventory yields no partial file
list but an error, and at run level the failure aborts the whole loop,
leaving later sibling units unreported. -/
theorem c4_inventory_failure_propagates :
    (∀ es rel, hasBadDirL es = true → walkFilesL rel es = .error ()) ∧
    (∀ t rel, hasBadDir t = true → walkFiles rel t = .error ()) :=
  ⟨fun es rel h => walkFilesL_hasBad es h rel,
   fun t rel h => walkFiles_hasBad t h rel⟩

/-- C4 witness: the amended statement applied to a concrete listing with
an unreadable subdirectory. -/
theorem c4_witness :
    walkFilesL [] [("sub", FsTree.badDir), ("x", FsTree.file 1 .badJson)] =
      .error () :=
  c4_inventory_failure_propagates.1
    [("sub", FsTree.badDir), ("x", FsTree.file 1 .badJson)] [] rfl

/-! ### Grouping preserves counts and sizes -/

theorem addFile_sumCounts (key : String) (sz : Nat) (l : List (String × GroupInfo)) :
    sumCounts (addFile key sz l) = sumCounts l + 1 := by
  induction l with
  | nil => simp [addFile, sumCounts]
  | cons e rest ih =>
    obtain ⟨k, g⟩ := e
    by_cases hk : k = key
    · simp [addFile, hk, sumCounts]
      omega
    · simp only [addFile, if_neg hk, sumCounts, List.map_cons, List.sum_cons]
      simp only [sumCounts] at ih
      omega

theorem addFile_sumSizes (key : String) (sz : Nat) (l : List (String × GroupInfo)) :
    sumSizes (addFile key sz l) = sumSizes l + sz := by
  induction l with
  | nil => simp [addFile, sumSizes]
  | cons e rest ih =>
    obtain ⟨k, g⟩ := e
    by_cases hk : k = key
    · simp [addFile, hk, sumSizes]
      omega
    · simp only [addFile, if_neg hk, sumSizes, List.map_cons, List.sum_cons]
      simp only [sumSizes] at ih
      omega

theorem buildGroups_foldl (files : List FileEntry) :
    ∀ acc, sumCounts (files.foldl (fun a f => addFile (topDir f.path) f.size a) acc)
        = sumCounts acc + files.length ∧
      sumSizes (files.foldl (fun a f => addFile (topDir f.path) f.size a) acc)
        = sumSizes acc + (files.map (fun f => f.size)).sum := by
  induction files with
  | nil => intro acc; simp
  | cons f rest ih =>
    intro acc
    simp only [List.foldl_cons, List.length_cons, List.map_cons, List.sum_cons]
    obtain ⟨hc, hs⟩ := ih (addFile (topDir f.path) f.size acc)
    rw [hc, hs, addFile_sumCounts, addFile_sumSizes]
    omega

theorem buildGroups_sumCounts (files : List FileEntry) :
    sumCounts (buildGroups files) = files.length := by
  have := (buildGroups_foldl files []).1
  simpa [buildGroups, sumCounts] using this

theorem buildGroups_sumSizes (files : List FileEntry) :
    sumSizes (buildGroups files) = (files.map (fun f => f.size)).sum := by
  have := (buildGroups_foldl files []).2
  simpa [buildGroups, sumSizes] using this

theorem sortBySizeDesc_perm (l : List (String × GroupInfo)) :
    (sortBySizeDesc l).Perm l := List.perm_insertionSort sizeGE l

theorem sortBySizeDesc_sumCounts (l : List (String × GroupInfo)) :
    sumCounts (sortBySizeDesc l) = sumCounts l := by
  simpa [sumCounts] using ((sortBySizeDesc_perm l).map (fun g => g.2.count)).sum_eq

theorem sortBySizeDesc_sumSizes (l : List (String × GroupInfo)) :
    sumSizes (sortBySizeDesc l) = sumSizes l := by
  simpa [sumSizes] using ((sortBySizeDesc_perm l).map (fun g => g.2.size)).sum_eq

/-! ### C1 -/

/-- C1: in every produced unit report, grouping by top-level directory is
a lossless partition — the per-group file counts of the rendered table
sum to the unit's total file count, and the per-group byte sizes sum to
the unit's total byte size. -/
theorem c1_grouping_lossless (name : List String) (t : FsTree) (rep : Report)
    (h : reportUnit name t = .ok rep) :
    sumCounts rep.table = rep.totalFiles ∧ sumSizes rep.table = rep.totalSize := by
  obtain ⟨es, desc, files, -, -, -, hrep⟩ := reportUnit_ok h
  subst hrep
  constructor
  · show sumCounts (sortBySizeDesc (buildGroups files)) = files.length
    rw [sortBySizeDesc_sumCounts, buildGroups_sumCounts]
  · show sumSizes (sortBySizeDesc (buildGroups files)) = (files.map (fun f => f.size)).sum
    rw [sortBySizeDesc_sumSizes, buildGroups_sumSizes]

/-- C1 witness: the lossless-partition property at a concrete unit with
files across several top-level directories. -/
theorem c1_witness :
    sumCounts demoRep.table = demoRep.totalFiles ∧
    sumSizes demoRep.table = demoRep.totalSize :=
  c1_grouping_lossless ["fn.func"] demoTree demoRep rfl

/-! ### C2 -/

/-- C2: a group lands in the report's suspicious list exactly when it is
in the table and its key, lowercased, starts with one of the configured
system-path patterns; under the default pattern set `node22` and `usr`
(in any letter case) are flagged while `app` and `lib` are not. -/
theorem c2_suspicion_detection :
    (∀ (name : List String) (t : FsTree) (rep : Report),
      reportUnit name t = .ok rep →
      ∀ g, g ∈ rep.suspicious ↔ (g ∈ rep.table ∧ isSuspicious g.1 = true)) ∧
    isSuspicious "node22" = true ∧ isSuspicious "usr" = true ∧
    isSuspicious "Node22" = true ∧ isSuspicious "USR" = true ∧
    isSuspicious "app" = false ∧ isSuspicious "lib" = false := by
  refine ⟨?_, by decide, by decide, by decide, by decide, by decide, by decide⟩
  intro name t rep h g
  obtain ⟨es, desc, files, -, -, -, hrep⟩ := reportUnit_ok h
  subst hrep
  simp [List.mem_filter]

/-- C2 witness: the flag characterisation applied to a concrete report
containing a `usr` group. -/
theorem c2_witness :
    (("usr", (⟨1, 5000⟩ : GroupInfo)) ∈ demoRep.suspicious ↔
      (("usr", (⟨1, 5000⟩ : GroupInfo)) ∈ demoRep.table ∧
        isSuspicious "usr" = true)) :=
  c2_suspicion_detection.1 ["fn.func"] demoTree demoRep rfl ("usr", ⟨1, 5000⟩)

/-! ### C8 -/

/-- C8: the size formatter renders below 1024 as bytes, from 1024 up to
1048576 as kibibytes to one decimal, and from 1048576 up as mebibytes to
one decimal; 512, 2048 and 5242880 render as the exact strings "512 B",
"2.0 KB" and "5.0 MB". -/
theorem c8_formatSize_thresholds :
    formatSize 512 = "512 B" ∧ formatSize 2048 = "2.0 KB" ∧
    formatSize 5242880 = "5.0 MB" ∧
    (∀ b, b < 1024 → formatSize b = toString b ++ " B") ∧
    (∀ b, 1024 ≤ b → b < 1048576 → formatSize b = fmt1 b 1024 ++ " KB") ∧
    (∀ b, 1048576 ≤ b → formatSize b = fmt1 b 1048576 ++ " MB") := by
  refine ⟨rfl, rfl, rfl, ?_, ?_, ?_⟩
  · intro b hb
    rw [formatSize, if_neg (by omega), if_neg (by omega)]
  · intro b h1 h2
    rw [formatSize, if_neg (by omega), if_pos (by omega)]
  · intro b h1
    rw [formatSize, if_pos (by omega)]

/-- C8 witness: each threshold branch applied at a concrete byte count. -/
theorem c8_witness :
    formatSize 100 = toString 100 ++ " B" ∧
    formatSize 1536 = fmt1 1536 1024 ++ " KB" ∧
    formatSize 2097152 = fmt1 2097152 1048576 ++ " MB" :=
  ⟨c8_formatSize_thresholds.2.2.2.1 100 (by norm_num),
   c8_formatSize_thresholds.2.2.2.2.1 1536 (by norm_num) (by norm_num),
   c8_formatSize_thresholds.2.2.2.2.2 2097152 (by norm_num)⟩

/-! ### Stability of the table sort -/

theorem filter_orderedInsert_size (s : Nat) (g : String × GroupInfo) :
    ∀ l, (List.orderedInsert sizeGE g l).filter (fun x => x.2.size == s)
      = ((g :: l).filter (fun x => x.2.size == s)) := by
  intro l
  induction l with
  | nil => simp [List.orderedInsert]
  | cons b t ih =>
    by_cases hr : sizeGE g b
    · simp [List.orderedInsert, if_pos hr]
    · have hgb : g.2.size < b.2.size := by
        have h1 : ¬ (b.2.size ≤ g.2.size) := hr
        omega
      have key : List.orderedInsert sizeGE g (b :: t)
          = b :: List.orderedInsert sizeGE g t := by
        rw [List.orderedInsert, if_neg hr]
      rw [key]
      cases hg : (g.2.size == s) with
      | true =>
        have hgs : g.2.size = s := by simpa using hg
        have hb : (b.2.size == s) = false := by
          simp only [beq_eq_false_iff_ne]
          omega
        simp [List.filter_cons, hb, hg, ih]
      | false =>
        cases hb : (b.2.size == s) <;> simp [List.filter_cons, hg, hb, ih]

theorem filter_sortBySizeDesc (l : List (String × GroupInfo)) (s : Nat) :
    (sortBySizeDesc l).filter (fun x => x.2.size == s)
      = l.filter (fun x => x.2.size == s) := by
  induction l with
  | nil => rfl
  | cons a t ih =>
    simp only [sortBySizeDesc, List.insertionSort] at *
    rw [filter_orderedInsert_size]
    simp [List.filter_cons, ih]

/-! ### C5 -/

/-- C5, counterexample: a unit with two equal-size groups first
encountered in the order `b`, `a` renders them in exactly that order —
`b` before `a` although `a` is lexicographically smaller, so equal-size
groups are not in lexicographic name order. -/
theorem c5_counterexample :
    reportUnit ["u.func"] c5tree = .ok c5rep ∧
    c5rep.table = [("b", ⟨1, 5⟩), ("a", ⟨1, 5⟩)] ∧
    strLt "a" "b" = true := ⟨rfl, rfl, rfl⟩

/-- C5, amended: the rendered table is ordered by weakly decreasing
cumulative size, and groups of equal size keep the order in which their
keys were first encountered while grouping (the stable-sort/insertion
order), not lexicographic name order. -/
theorem c5_table_order :
    (∀ (name : List String) (t : FsTree) (rep : Report),
      reportUnit name t = .ok rep → List.Sorted sizeGE rep.table) ∧
    (∀ l s, (sortBySizeDesc l).filter (fun x => x.2.size == s)
        = l.filter (fun x => x.2.size == s)) := by
  constructor
  · intro name t rep h
    obtain ⟨es, desc, files, -, -, -, hrep⟩ := reportUnit_ok h
    subst hrep
    exact List.sorted_insertionSort sizeGE (buildGroups files)
  · exact fun l s => filter_sortBySizeDesc l s

/-- C5 witness: sortedness of a concrete report's table. -/
theorem c5_witness : List.Sorted sizeGE demoRep.table :=
  c5_table_order.1 ["fn.func"] demoTree demoRep rfl

/-! ### Paths produced by the inventory are never empty -/

mutual
theorem walkFiles_path_ne_nil : ∀ (t : FsTree) (rel : List String)
    (files : List FileEntry), walkFiles rel t = .ok files →
    ∀ f ∈ files, f.path ≠ []
  | .file _ _, _, _, h => by simp [walkFiles] at h
  | .badDir, _, _, h => by simp [walkFiles] at h
  | .dir es, rel, files, h =>
      walkFilesL_path_ne_nil es rel files (by simpa [walkFiles] using h)

theorem walkFilesL_path_ne_nil : ∀ (es : List (String × FsTree)) (rel : List String)
    (files : List FileEntry), walkFilesL rel es = .ok files →
    ∀ f ∈ files, f.path ≠ []
  | [], _, files, h => by
      intro f hf
      simp only [walkFilesL] at h
      injection h with h'
      subst h'
      simp at hf
  | (name, t) :: rest, rel, files, h => by
      intro f hf
      simp only [walkFilesL] at h
      cases hin : (if isDirectory t then walkFiles (rel ++ [name]) t
          else .ok [⟨rel ++ [name], statSize t⟩]) with
      | error e => rw [hin] at h; exact Except.noConfusion h
      | ok here =>
        rw [hin] at h
        cases hrest : walkFilesL rel rest with
        | error e => rw [hrest] at h; exact Except.noConfusion h
        | ok more =>
          rw [hrest] at h
          injection h with h'
          subst h'
          rcases List.mem_append.mp hf with hf1 | hf2
          · by_cases hd : isDirectory t
            · rw [if_pos hd] at hin
              exact walkFiles_path_ne_nil t (rel ++ [name]) here hin f hf1
            · rw [if_neg hd] at hin
              injection hin with hin'
              subst hin'
              simp at hf1
              subst hf1
              simp
          · exact walkFilesL_path_ne_nil rest rel more hrest f hf2
end

/-! ### Group keys are exactly the top-level segments -/

theorem addFile_keys (key : String) (sz : Nat) (l : List (String × GroupInfo))
    (j : String) :
    (j ∈ (addFile key sz l).map (fun g => g.1)) ↔
      (j = key ∨ j ∈ l.map (fun g => g.1)) := by
  induction l with
  | nil => simp [addFile]
  | cons e rest ih =>
    obtain ⟨k, g⟩ := e
    by_cases hk : k = key
    · subst hk
      simp [addFile]
    · simp [addFile, hk, ih]
      tauto

theorem buildGroups_keys (files : List FileEntry) (k : String) :
    (k ∈ (buildGroups files).map (fun g => g.1)) ↔
      (∃ f ∈ files, topDir f.path = k) := by
  suffices h : ∀ acc,
      (k ∈ (files.foldl (fun a f => addFile (topDir f.path) f.size a) acc).map
          (fun g => g.1)) ↔
        (k ∈ acc.map (fun g => g.1) ∨ ∃ f ∈ files, topDir f.path = k) by
    simpa [buildGroups] using h []
  induction files with
  | nil => intro acc; simp
  | cons f rest ih =>
    intro acc
    simp only [List.foldl_cons]
    rw [ih, addFile_keys]
    constructor
    · rintro ((h1 | h1) | h1)
      · exact Or.inr ⟨f, by simp, h1.symm⟩
      · exact Or.inl h1
      · obtain ⟨f', hf', hk'⟩ := h1
        exact Or.inr ⟨f', by simp [hf'], hk'⟩
    · rintro (h1 | h1)
      · exact Or.inl (Or.inr h1)
      · obtain ⟨f', hf', hk'⟩ := h1
        rcases List.mem_cons.mp hf' with h2 | h2
        · subst h2; exact Or.inl (Or.inl hk'.symm)
        · exact Or.inr ⟨f', h2, hk'⟩

/-! ### C9 -/

/-- C9, counterexample: a unit holding one file directly at the unit root
groups it under its own file name, not under the "(root)" sentinel. -/
theorem c9_counterexample :
    reportUnit ["r.func"] c9tree = .ok c9rep ∧
    c9rep.table = [("standalone.js", ⟨1, 7⟩)] ∧
    ("standalone.js" : String) ≠ "(root)" := ⟨rfl, rfl, by decide⟩

/-- C9, amended: the aggregation key is the first segment of the
unit-relative path, so a file directly at the unit root is grouped under
its own (nonempty) file name; the "(root)" sentinel would apply only to
an empty or absent first segment, which the inventory never produces. -/
theorem c9_root_files_key :
    (∀ (n : String) (rest : List String), n ≠ "" → topDir (n :: rest) = n) ∧
    (∀ files k, (k ∈ (buildGroups files).map (fun g => g.1)) ↔
        (∃ f ∈ files, topDir f.path = k)) ∧
    (∀ es files, walkFilesL [] es = .ok files → ∀ f ∈ files, f.path ≠ []) ∧
    topDir [] = "(root)" ∧ (∀ rest, topDir ("" :: rest) = "(root)") := by
  refine ⟨?_, ?_, ?_, rfl, fun rest => rfl⟩
  · intro n rest hn
    simp [topDir, hn]
  · exact buildGroups_keys
  · exact fun es files h => walkFilesL_path_ne_nil es [] files h

/-- C9 witness: the key of a concrete nested file and a concrete
group-key membership. -/
theorem c9_witness :
    topDir ["app", "x"] = "app" ∧
    ("app" ∈ (buildGroups [⟨["app", "x"], 3⟩]).map (fun g => g.1)) :=
  ⟨c9_root_files_key.1 "app" ["x"] (by decide),
   (c9_root_files_key.2.1 [⟨["app", "x"], 3⟩] "app").mpr
     ⟨⟨["app", "x"], 3⟩, by simp, rfl⟩⟩

/-! ### C10 -/

/-- C10: when a unit's descriptor parses and its handler string contains
the `vercel/path0` marker, the report carries the structural warning,
whose value is determined by the handler string alone — independent of
the unit's files and of any name-based suspicion. -/
theorem c10_handler_marker_warning (name : List String)
    (es : List (String × FsTree)) (h r : String) (sz : Nat) (rep : Report)
    (hlk : lookupName vcConfigName es = some (.file sz (.vcConfig h r)))
    (hok : reportUnit name (.dir es) = .ok rep) :
    rep.pathZeroWarn = strContains h pathZeroMarker ∧ rep.handler = some h := by
  obtain ⟨es', desc, files, heq, hd, hw, hrep⟩ := reportUnit_ok hok
  injection heq with heq'
  subst heq'
  have hdesc : desc = some (h, r) := by
    rw [readDescriptor, hlk] at hd
    injection hd with hd'
    exact hd'.symm
  subst hdesc
  subst hrep
  exact ⟨rfl, rfl⟩

/-- C10 witness: the structural warning at a concrete unit whose handler
contains the marker while no group is name-suspicious. -/
theorem c10_witness :
    c10rep.pathZeroWarn =
      strContains "vercel/path0/apps/site/index.js" pathZeroMarker ∧
    c10rep.handler = some "vercel/path0/apps/site/index.js" :=
  c10_handler_marker_warning ["p.func"] c10entries
    "vercel/path0/apps/site/index.js" "nodejs22.x" 20 c10rep rfl rfl

/-! ### Soundness of the locator: every emitted unit path has the
`.func`-frontier shape -/

mutual
theorem findFuncDirs_sound : ∀ (t : FsTree) (pfx : List String)
    (us : List (List String × FsTree)), findFuncDirs pfx t = .ok us →
    ∀ u ∈ us, (∃ mid lastSeg, u.1 = pfx ++ (mid ++ [lastSeg]) ∧
      strEnds lastSeg unitSuffix = true ∧
      (∀ s ∈ mid, strEnds s unitSuffix = false)) ∧ isDirectory u.2 = true
  | .file _ _, _, _, h => by simp [findFuncDirs] at h
  | .badDir, _, _, h => by simp [findFuncDirs] at h
  | .dir es, pfx, us, h =>
      findFuncDirsL_sound es pfx us (by simpa [findFuncDirs] using h)

theorem findFuncDirsL_sound : ∀ (es : List (String × FsTree)) (pfx : List String)
    (us : List (List String × FsTree)), findFuncDirsL pfx es = .ok us →
    ∀ u ∈ us, (∃ mid lastSeg, u.1 = pfx ++ (mid ++ [lastSeg]) ∧
      strEnds lastSeg unitSuffix = true ∧
      (∀ s ∈ mid, strEnds s unitSuffix = false)) ∧ isDirectory u.2 = true
  | [], _, us, h => by
      intro u hu
      simp only [findFuncDirsL] at h
      injection h with h'
      subst h'
      simp at hu
  | (name, t) :: rest, pfx, us, h => by
      intro u hu
      simp only [findFuncDirsL] at h
      cases hin : (if isDirectory t then
          (if strEnds name unitSuffix then
            (.ok [(pfx ++ [name], t)] : Except Unit (List (List String × FsTree)))
          else findFuncDirs (pfx ++ [name]) t)
        else .ok []) with
      | error e => rw [hin] at h; exact Except.noConfusion h
      | ok here =>
        rw [hin] at h
        cases hrest : findFuncDirsL pfx rest with
        | error e => rw [hrest] at h; exact Except.noConfusion h
        | ok more =>
          rw [hrest] at h
          injection h with h'
          subst h'
          rcases List.mem_append.mp hu with hu1 | hu2
          · by_cases hd : isDirectory t = true
            · rw [if_pos hd] at hin
              by_cases he : strEnds name unitSuffix = true
              · rw [if_pos he] at hin
                injection hin with hin'
                subst hin'
                simp only [List.mem_singleton] at hu1
                subst hu1
                exact ⟨⟨[], name, by simp, he, by simp⟩, hd⟩
              · rw [if_neg he] at hin
                obtain ⟨⟨mid, lastSeg, h1, h2, h3⟩, h4⟩ :=
                  findFuncDirs_sound t (pfx ++ [name]) here hin u hu1
                refine ⟨⟨name :: mid, lastSeg, ?_, h2, ?_⟩, h4⟩
                · rw [h1]; simp
                · intro s hs
                  rcases List.mem_cons.mp hs with h5 | h5
                  · subst h5; simpa using he
                  · exact h3 s h5
            · rw [if_neg hd] at hin
              injection hin with hin'
              subst hin'
              simp at hu1
          · exact findFuncDirsL_sound rest pfx more hrest u hu2
end

/-! ### Paths of the frontier shape are never nested -/

theorem middle_mem_of_append (mid1 : List String) :
    ∀ (mid2 : List String) (l1 l2 : String) (zs : List String), zs ≠ [] →
    (mid1 ++ [l1]) ++ zs = mid2 ++ [l2] → l1 ∈ mid2 := by
  induction mid1 with
  | nil =>
    intro mid2 l1 l2 zs hzs h
    cases mid2 with
    | nil =>
      simp at h
      exact absurd h.2 hzs
    | cons m mid2' =>
      simp at h
      simp [h.1]
  | cons m mid1' ih =>
    intro mid2 l1 l2 zs hzs h
    cases mid2 with
    | nil => simp at h
    | cons m2 mid2' =>
      simp at h
      exact List.mem_cons_of_mem _ (ih mid2' l1 l2 zs hzs (by simpa using h.2))

theorem funcShape_no_nesting (p q : List String)
    (hp : funcShape p) (hq : funcShape q) (hpre : p <+: q) (hne : p ≠ q) :
    False := by
  obtain ⟨mid1, l1, hp1, hp2, hp3⟩ := hp
  obtain ⟨mid2, l2, hq1, hq2, hq3⟩ := hq
  obtain ⟨zs, hz⟩ := hpre
  cases zs with
  | nil => exact hne (by simpa using hz)
  | cons z zs' =>
    subst hp1
    subst hq1
    have hmem : l1 ∈ mid2 :=
      middle_mem_of_append mid1 mid2 l1 l2 (z :: zs') (by simp) hz
    have hfalse := hq3 l1 hmem
    simp [hp2] at hfalse

/-! ### Completeness of the locator -/

mutual
theorem findFuncDirs_complete : ∀ (t : FsTree) (pfx : List String)
    (us : List (List String × FsTree)) (p : List String) (t' : FsTree),
    findFuncDirs pfx t = .ok us → resolvePath t p = some t' →
    isDirectory t' = true → funcShape p → (pfx ++ p) ∈ us.map (fun u => u.1)
  | .file _ _, _, _, _, _, h, _, _, _ => by simp [findFuncDirs] at h
  | .badDir, _, _, _, _, h, _, _, _ => by simp [findFuncDirs] at h
  | .dir es, pfx, us, p, t', h, hres, hdir, hshape => by
      cases p with
      | nil =>
        obtain ⟨mid, lastSeg, h1, -, -⟩ := hshape
        exact absurd h1.symm (by simp)
      | cons name restp =>
        cases hlk : lookupName name es with
        | none => simp [resolvePath, hlk] at hres
        | some t0 =>
          have hres' : resolvePath t0 restp = some t' := by
            simpa [resolvePath, hlk] using hres
          exact findFuncDirsL_complete es pfx us name restp t0 t'
            (by simpa [findFuncDirs] using h) hlk hres' hdir hshape

theorem findFuncDirsL_complete : ∀ (es : List (String × FsTree))
    (pfx : List String) (us : List (List String × FsTree)) (name : String)
    (restp : List String) (t0 t' : FsTree),
    findFuncDirsL pfx es = .ok us → lookupName name es = some t0 →
    resolvePath t0 restp = some t' → isDirectory t' = true →
    funcShape (name :: restp) → (pfx ++ name :: restp) ∈ us.map (fun u => u.1)
  | [], _, _, _, _, _, _, _, hlk, _, _, _ => by simp [lookupName] at hlk
  | (n, t) :: rest, pfx, us, name, restp, t0, t', h, hlk, hres, hdir, hshape => by
      simp only [findFuncDirsL] at h
      cases hin : (if isDirectory t then
          (if strEnds n unitSuffix then
            (.ok [(pfx ++ [n], t)] : Except Unit (List (List String × FsTree)))
          else findFuncDirs (pfx ++ [n]) t)
        else .ok []) with
      | error e => rw [hin] at h; exact Except.noConfusion h
      | ok here =>
        rw [hin] at h
        cases hrest : findFuncDirsL pfx rest with
        | error e => rw [hrest] at h; exact Except.noConfusion h
        | ok more =>
          rw [hrest] at h
          injection h with h'
          subst h'
          by_cases hnn : n = name
          · subst hnn
            have ht0 : t0 = t := by
              rw [lookupName, if_pos rfl] at hlk
              injection hlk with hlk'
              exact hlk'.symm
            subst ht0
            cases restp with
            | nil =>
              have ht' : t0 = t' := by
                have h0 : some t0 = some t' := by simpa [resolvePath] using hres
                injection h0
              obtain ⟨mid, lastSeg, h1, h2, h3⟩ := hshape
              have hlast : lastSeg = n := by
                cases mid with
                | nil => simpa using h1.symm
                | cons m ms => simp at h1
              subst hlast
              rw [if_pos (show isDirectory t0 = true by rw [ht']; exact hdir),
                if_pos h2] at hin
              injection hin with hin'
              subst hin'
              simp
            | cons r rs =>
              cases t0 with
              | file sz d => simp [resolvePath] at hres
              | badDir => simp [resolvePath] at hres
              | dir es0 =>
                obtain ⟨mid, lastSeg, h1, h2, h3⟩ := hshape
                cases mid with
                | nil => simp at h1
                | cons m ms =>
                  simp at h1
                  obtain ⟨hm, hrest1⟩ := h1
                  subst hm
                  have hne : strEnds n unitSuffix = false := h3 n (by simp)
                  rw [if_pos (by simp [isDirectory]), if_neg (by simp [hne])] at hin
                  have hshape' : funcShape (r :: rs) :=
                    ⟨ms, lastSeg, by simpa using hrest1, h2,
                     fun s hs => h3 s (List.mem_cons_of_mem _ hs)⟩
                  have hrec := findFuncDirs_complete (.dir es0) (pfx ++ [n]) here
                    (r :: rs) t' hin hres hdir hshape'
                  simp only [List.map_append, List.mem_append]
                  left
                  simpa using hrec
          · have hlk' : lookupName name rest = some t0 := by
              simpa [lookupName, hnn] using hlk
            have hrec := findFuncDirsL_complete rest pfx more name restp t0 t'
              hrest hlk' hres hdir hshape
            simp only [List.map_append, List.mem_append]
            exact Or.inr hrec
end

/-! ### C6 -/

/-- C6: for a successful locate, every emitted unit path consists of
non-`.func` descent segments capped by one `.func` segment and points at
a directory (matching directories are emitted, not descended past,
non-matching ones are descended into); hence no emitted unit path is a
strict prefix of another; and conversely every directory reachable along
non-`.func` segments whose own name ends in `.func` is emitted. -/
theorem c6_locator_units (root : FsTree) (us : List (List String × FsTree))
    (h : findFuncDirs [] root = .ok us) :
    (∀ u ∈ us, funcShape u.1 ∧ isDirectory u.2 = true) ∧
    (∀ u ∈ us, ∀ v ∈ us, u.1 ≠ v.1 → ¬ (u.1 <+: v.1)) ∧
    (∀ p t', resolvePath root p = some t' → isDirectory t' = true →
      funcShape p → p ∈ us.map (fun u => u.1)) := by
  have hs := findFuncDirs_sound root [] us h
  refine ⟨?_, ?_, ?_⟩
  · intro u hu
    obtain ⟨⟨mid, lastSeg, h1, h2, h3⟩, h4⟩ := hs u hu
    exact ⟨⟨mid, lastSeg, by simpa using h1, h2, h3⟩, h4⟩
  · intro u hu v hv hne hpre
    obtain ⟨⟨mid1, l1, h1, h2, h3⟩, -⟩ := hs u hu
    obtain ⟨⟨mid2, l2, h1', h2', h3'⟩, -⟩ := hs v hv
    exact funcShape_no_nesting u.1 v.1 ⟨mid1, l1, by simpa using h1, h2, h3⟩
      ⟨mid2, l2, by simpa using h1', h2', h3'⟩ hpre hne
  · intro p t' h1 h2 h3
    simpa using findFuncDirs_complete root [] us p t' h h1 h2 h3

/-- C6 witness: on a concrete root, the nested unit `api/fn.func` is
located (while the `.func` directory inside it is not emitted as its own
unit, being past the frontier). -/
theorem c6_witness : ["api", "fn.func"] ∈ c6units.map (fun u => u.1) :=
  (c6_locator_units c6root c6units rfl).2.2 ["api", "fn.func"] c6fnTree rfl rfl
    ⟨["api"], "fn.func", rfl, by decide, by decide⟩
